import Mathlib

/-!
Verification of the two-pass trend-scoring news pipeline in
`_scripts/fetch_news.py`.

The script fetches a historical pool of articles, extracts trending
keywords from their titles (`extract_keywords`), fetches a candidate pool
for the most recent completed day, scores each candidate against the
keywords (`score_article`), sorts by score, truncates, projects each
article to four output fields and writes the result (`main`).

Shallow embedding conventions:
  * JSON-ish values (the records returned by the news API) are modelled by
    `JVal` (null, string, object); a Python dict is an insertion-ordered
    association list `PyDict`.
  * Python exceptions (`KeyError` on `d[k]` with a missing key,
    `AttributeError` on calling `.lower()`/`.get` on a non-string/non-dict)
    are modelled with `Except String`.
  * The external collaborators are parameters: `tokenize` stands for
    `jieba.cut`, `isNum` for Python's `str.isnumeric` (whose exact Unicode
    numeric table we do not re-implement; every theorem holds for an
    arbitrary predicate), and the two fetched pools stand for the results
    of the two `get_news_from_range` calls.
  * Writing the output file is modelled by `main` returning
    `.ok (some records)`; returning without writing (the early `return`
    branches of the script) is `.ok none`; an uncaught exception is
    `.error _`.
  * `collections.Counter` is an insertion-ordered association list
    (CPython dicts preserve insertion order); `Counter.most_common(n)` and
    `list.sort(key=..., reverse=True)` are the stable descending sort
    `sortDescBy` followed by `List.take` — Python's sort is documented
    stable, and a stable sort is extensionally unique, so the insertion
    sort used here is extensionally the same function.
-/

/-- A JSON-like value as handled by the script: `null`, a string, or an
object (Python dict). This is the value universe the script actually
touches on article records. -/
inductive JVal where
  | jnull : JVal
  | jstr : String → JVal
  | jobj : List (String × JVal) → JVal

/-- A Python dict with string keys, in insertion order. -/
abbrev PyDict := List (String × JVal)

/-- Python truthiness for the values the script tests with `if not x` /
`x or y`: `None` and empty strings / empty dicts are falsy. -/
def JVal.truthy : JVal → Bool
  | .jnull => false
  | .jstr s => !s.isEmpty
  | .jobj l => !l.isEmpty

/-- Python `d.get(k, default)`: the stored value when the key is present
(even when that value is `None`), otherwise the default. -/
def dGet (d : PyDict) (k : String) (dflt : JVal) : JVal :=
  (d.lookup k).getD dflt

-- Configuration constants of the script (`fetch_news.py`, top of file).

/-- `TARGET_ARTICLE_COUNT = 15`. -/
def TARGET_ARTICLE_COUNT : Nat := 15

/-- `FETCH_POOL_SIZE = 50`. -/
def FETCH_POOL_SIZE : Nat := 50

/-- `TREND_SEARCH_DAYS = 10`. -/
def TREND_SEARCH_DAYS : Nat := 10

/-- `TREND_SEARCH_POOL_SIZE = 100`. -/
def TREND_SEARCH_POOL_SIZE : Nat := 100

/-- `TOP_TRENDING_KEYWORDS_COUNT = 20`. -/
def TOP_TRENDING_KEYWORDS_COUNT : Nat := 20

/-- `CUSTOM_STOP_WORDS`, transcribed from the script (a Python set used
only for membership tests; modelled as a list). -/
def CUSTOM_STOP_WORDS : List String :=
  [ "的", "了", "在", "是", "我", "你", "他", "她", "也", "和", "或", "都", "就",
    "与", "及", "个", "为", "以", "中", "上", "下", "元", "月", "日", "年", "我们",
    "一个", "什么", "没有", "这个", "这些", "以及", "如何", "为什么", "可能", "进行",
    "表示", "成为", "推出", "发布", "出现", "使用", "基于", "通过", "据", "称",
    "a", "an", "the", "is", "are", "was", "were", "to", "for", "of", "in", "on",
    "with", "by", "from", "about", "as", "at", "that", "this", "these", "those",
    "and", "or", "but", "if", "what", "when", "where", "how", "which", "who", "whom",
    "will", "can", "not", "it", "its", "they", "their", "we", "our", "you", "your",
    "ai", "人工智能", "人工智慧" ]

/-!
Date windows (`main`, Pass 1 and Pass 2). Calendar days are modelled as
integers (a day ordinal); `datetime.now() - timedelta(days=n)` is
subtraction of `n`. The API is called with inclusive `from`/`to` bounds,
so each fetch window is a closed integer interval.

In the script: `yesterday = today - timedelta(days=1)`,
`trend_start_date = today - timedelta(days=TREND_SEARCH_DAYS)`, the trend
fetch runs `from_date=trend_start_date, to_date=yesterday` and the
candidate fetch runs `from_date=yesterday, to_date=yesterday`.
-/

/-- `yesterday = today - timedelta(days=1)`. -/
def yesterdayOf (today : Int) : Int := today - 1

/-- `trend_start_date = today - timedelta(days=TREND_SEARCH_DAYS)`. -/
def trendStartOf (today : Int) : Int := today - (TREND_SEARCH_DAYS : Int)

/-- Membership in the trend fetch window
(`from_date=trend_start_date, to_date=yesterday`, inclusive bounds). -/
def inTrendWindow (today d : Int) : Prop :=
  trendStartOf today ≤ d ∧ d ≤ yesterdayOf today

/-- Membership in the candidate fetch window
(`from_date=yesterday, to_date=yesterday`). -/
def inCandidateWindow (today d : Int) : Prop :=
  yesterdayOf today ≤ d ∧ d ≤ yesterdayOf today

instance (today d : Int) : Decidable (inTrendWindow today d) := by
  unfold inTrendWindow; infer_instance

instance (today d : Int) : Decidable (inCandidateWindow today d) := by
  unfold inCandidateWindow; infer_instance

/-- **C1, counterexample.** With `today = 100` the day `99` (the most
recent completed day) lies in *both* fetch windows: the trend fetch runs
up to and including `yesterday`, and the candidate window is exactly
`yesterday`, so the two windows overlap and the claimed disjointness
fails. -/
theorem trend_candidate_windows_overlap :
    inTrendWindow 100 99 ∧ inCandidateWindow 100 99 := by
  constructor <;> constructor <;> decide

/-- **C1, amended.** For every run, the trend window is the
`TREND_SEARCH_DAYS`-day closed interval `[today - TREND_SEARCH_DAYS,
today - 1]`, ending at — and *including* — the most recent completed day;
the candidate window is that most recent completed day itself; and the
two windows overlap in exactly that one day. -/
theorem trend_candidate_windows_spec (today : Int) :
    trendStartOf today = today - (TREND_SEARCH_DAYS : Int) ∧
    yesterdayOf today - trendStartOf today + 1 = (TREND_SEARCH_DAYS : Int) ∧
    inTrendWindow today (yesterdayOf today) ∧
    (∀ d : Int, inCandidateWindow today d ↔ d = yesterdayOf today) ∧
    (∀ d : Int, inTrendWindow today d ∧ inCandidateWindow today d ↔
      d = yesterdayOf today) := by
  refine ⟨rfl, by unfold yesterdayOf trendStartOf TREND_SEARCH_DAYS; omega, ?_, ?_, ?_⟩
  · constructor
    · simp only [trendStartOf, yesterdayOf, TREND_SEARCH_DAYS]; omega
    · exact le_refl _
  · intro d
    constructor
    · intro ⟨h1, h2⟩; omega
    · intro h; exact ⟨le_of_eq h.symm, le_of_eq h⟩
  · intro d
    constructor
    · intro ⟨_, h1, h2⟩; omega
    · intro h
      refine ⟨⟨?_, le_of_eq h⟩, le_of_eq h.symm, le_of_eq h⟩
      simp only [trendStartOf, yesterdayOf, TREND_SEARCH_DAYS] at *
      omega

/-!
Strings-as-Python: substring containment (`needle in hay`) over the
character sequences of the two strings.
-/

/-- Python's `str.lower()`, as a per-character case map over the string's
characters (`Char.toLower`; the identity on the CJK text involved). -/
def strToLower (s : String) : String := ⟨s.data.map Char.toLower⟩

/-- `needle` is a prefix of `hay`, over character lists. -/
def charsStartWith : List Char → List Char → Bool
  | _, [] => true
  | [], _ :: _ => false
  | c :: cs, d :: ds => c == d && charsStartWith cs ds

/-- `needle` occurs somewhere in `hay`, over character lists
(the empty needle always occurs). -/
def charsContain : List Char → List Char → Bool
  | [], needle => needle.isEmpty
  | c :: rest, needle => charsStartWith (c :: rest) needle || charsContain rest needle

/-- Python's `needle in hay` on strings: substring containment. -/
def strContainsSub (hay needle : String) : Bool :=
  charsContain hay.data needle.data

/-!
`extract_keywords` (Pass 1). `collections.Counter` is modelled as an
association list in insertion order; `Counter.update([w])` bumps the
count of an existing key in place or appends a fresh key at the end.
-/

/-- The frequency counter: `(token, count)` pairs in first-encounter
order. -/
abbrev Counter := List (String × Nat)

/-- `word_counts.update([w])`: increment the count of `w` if present
(keeping its position), else append `(w, 1)` at the end (dict insertion
order). -/
def counterUpdate (c : Counter) (w : String) : Counter :=
  if c.any (fun p => p.1 == w) then
    c.map (fun p => if p.1 == w then (p.1, p.2 + 1) else p)
  else c ++ [(w, 1)]

/-- The token filter of the extraction loop:
`word not in CUSTOM_STOP_WORDS and not word.isnumeric() and len(word) > 1`.
`isNum` is Python's `str.isnumeric`, kept abstract. -/
def tokenFilter (isNum : String → Bool) (w : String) : Bool :=
  !CUSTOM_STOP_WORDS.contains w && !isNum w && decide (1 < w.length)

/-- Per-article token extraction:
`title = article.get('title', '')`; `if not title: continue`;
`words = jieba.cut(title.lower())`. A truthy non-string title makes
`.lower()` raise `AttributeError`. `tokenize` stands for `jieba.cut`. -/
def articleTitleTokens (tokenize : String → List String) (a : PyDict) :
    Except String (List String) :=
  let title := dGet a "title" (.jstr "")
  if title.truthy then
    match title with
    | .jstr s => .ok (tokenize (strToLower s))
    | _ => .error "AttributeError: lower"
  else .ok []

/-- The accumulation loop of `extract_keywords`: for each article, tokenize
its title and count every token surviving `tokenFilter`. -/
def buildCounter (tokenize : String → List String) (isNum : String → Bool) :
    List PyDict → Counter → Except String Counter
  | [], c => .ok c
  | a :: rest, c =>
    match articleTitleTokens tokenize a with
    | .error e => .error e
    | .ok ws =>
      buildCounter tokenize isNum rest
        ((ws.filter (tokenFilter isNum)).foldl counterUpdate c)

/-- Stable insert for a descending sort by `key`: the new element goes
after every already-placed element of greater-or-equal key. -/
def insertDescBy {α β : Type} [LinearOrder β] (key : α → β) (x : α) :
    List α → List α
  | [] => [x]
  | y :: ys => if key x ≤ key y then y :: insertDescBy key x ys else x :: y :: ys

/-- Stable descending sort by `key` (extensionally: Python's stable
`sorted(..., key=key, reverse=True)`, which also underlies
`Counter.most_common` and `list.sort(..., reverse=True)`). -/
def sortDescBy {α β : Type} [LinearOrder β] (key : α → β) (l : List α) : List α :=
  l.foldl (fun acc x => insertDescBy key x acc) []

/-- `extract_keywords(articles)`: count filtered title tokens, then
`word_counts.most_common(TOP_TRENDING_KEYWORDS_COUNT)` — the counter
items stably sorted by descending count, truncated to the top K. -/
def extract_keywords (tokenize : String → List String) (isNum : String → Bool)
    (articles : List PyDict) : Except String (List (String × Nat)) :=
  match buildCounter tokenize isNum articles [] with
  | .error e => .error e
  | .ok word_counts =>
    .ok ((sortDescBy (fun p => p.2) word_counts).take TOP_TRENDING_KEYWORDS_COUNT)

/-!
`score_article` (Pass 2).
-/

/-- `(x or '').lower()` for a field value fetched with `.get(k)`:
`None` and falsy values become `""`; a truthy string is lower-cased; a
truthy non-string raises `AttributeError`. -/
def pyFieldText : JVal → Except String String
  | .jnull => .ok ""
  | .jstr s => .ok (strToLower s)
  | .jobj l => if l.isEmpty then .ok "" else .error "AttributeError: lower"

/-- `content = title + " " + description` of `score_article`. -/
def articleContent (article : PyDict) : Except String String :=
  match pyFieldText (dGet article "title" .jnull) with
  | .error e => .error e
  | .ok title =>
    match pyFieldText (dGet article "description" .jnull) with
    | .error e => .error e
    | .ok description => .ok (title ++ " " ++ description)

/-- The scoring loop: `score = 0`; for each `(keyword, weight)` pair, if
`keyword in content` then `score += weight`. -/
def scoreContent (content : String) (trending_keywords : List (String × Nat)) : Int :=
  trending_keywords.foldl
    (fun score kw => if strContainsSub content kw.1 then score + (kw.2 : Int) else score) 0

/-- `score_article(article, trending_keywords)`. -/
def score_article (article : PyDict) (trending_keywords : List (String × Nat)) :
    Except String Int :=
  match articleContent article with
  | .error e => .error e
  | .ok content => .ok (scoreContent content trending_keywords)

/-!
`main` (the Selector), parameterized by the collaborators: the tokenizer,
the numeric predicate, and the two fetched pools.
-/

/-- Python `article['title'] == '[Removed]'`: comparison of a JSON value
with a string literal. -/
def isRemovedTitle : JVal → Bool
  | .jstr s => s == "[Removed]"
  | _ => false

/-- The candidate filter of Pass 2:
`if not article.get('title') or article['title'] == '[Removed]': continue`. -/
def isValidArticle (a : PyDict) : Bool :=
  (dGet a "title" .jnull).truthy && !isRemovedTitle (dGet a "title" .jnull)

/-- The surviving candidates, in fetch order. -/
def validCandidates (pool : List PyDict) : List PyDict :=
  pool.filter isValidArticle

/-- The scoring loop of `main`: build `scored_articles`, a list of
`(article, score)` pairs in pool order. -/
def scoreStage (trending_keywords : List (String × Nat)) :
    List PyDict → Except String (List (PyDict × Int))
  | [] => .ok []
  | a :: rest =>
    match score_article a trending_keywords with
    | .error e => .error e
    | .ok s =>
      match scoreStage trending_keywords rest with
      | .error e => .error e
      | .ok tail => .ok ((a, s) :: tail)

/-- `scored_articles.sort(key=lambda x: x[1], reverse=True)`: stable
descending sort by score. -/
def sortStage (scored : List (PyDict × Int)) : List (PyDict × Int) :=
  sortDescBy (fun p => p.2) scored

/-- `top_articles = [article for article, score in scored_articles[:TARGET_ARTICLE_COUNT]]`. -/
def topStage (sorted : List (PyDict × Int)) : List PyDict :=
  (sorted.take TARGET_ARTICLE_COUNT).map Prod.fst

/-- One record of the output file: the four projected fields. -/
structure ProcessedArticle where
  title : JVal
  description : JVal
  url : JVal
  source : JVal

/-- The Pass-3 projection of one article:
`{'title': article['title'], 'description': article.get('description', ''),
'url': article['url'], 'source': article.get('source', {}).get('name', 'N/A')}`.
`article['title']` / `article['url']` raise `KeyError` when absent;
`.get('name', ...)` raises `AttributeError` when the stored `source` value
is not a dict (e.g. `None`). -/
def projectArticle (article : PyDict) : Except String ProcessedArticle :=
  match article.lookup "title" with
  | none => .error "KeyError: title"
  | some t =>
    match article.lookup "url" with
    | none => .error "KeyError: url"
    | some u =>
      match dGet article "source" (.jobj []) with
      | .jobj fs =>
        .ok { title := t
              description := dGet article "description" (.jstr "")
              url := u
              source := dGet fs "name" (.jstr "N/A") }
      | _ => .error "AttributeError: get"

/-- The projection loop of Pass 3 over the selected articles. -/
def outputStage : List PyDict → Except String (List ProcessedArticle)
  | [] => .ok []
  | a :: rest =>
    match projectArticle a with
    | .error e => .error e
    | .ok r =>
      match outputStage rest with
      | .error e => .error e
      | .ok tail => .ok (r :: tail)

/-- `main()` from the first fetch on (named `mainRun` because Lean reserves `main` for executables). The two pools are the results of
the two `get_news_from_range` calls. `.ok none` models the early
`return` branches (no file written); `.ok (some records)` models writing
`records` to the output file; `.error` models an uncaught exception. -/
def mainRun (tokenize : String → List String) (isNum : String → Bool)
    (trend_articles yesterday_articles_pool : List PyDict) :
    Except String (Option (List ProcessedArticle)) :=
  if trend_articles.isEmpty then .ok none
  else
    match extract_keywords tokenize isNum trend_articles with
    | .error e => .error e
    | .ok trending_keywords =>
      if trending_keywords.isEmpty then .ok none
      else if yesterday_articles_pool.isEmpty then .ok none
      else
        match scoreStage trending_keywords (validCandidates yesterday_articles_pool) with
        | .error e => .error e
        | .ok scored_articles =>
          match outputStage (topStage (sortStage scored_articles)) with
          | .error e => .error e
          | .ok processed_articles => .ok (some processed_articles)

/-!
Properties of the stable descending insertion sort `sortDescBy`:
it permutes its input, its output is pairwise descending in the key, and
it is stable — for every key value `k`, the elements of key `k` appear in
the output exactly as they appear in the input.
-/

theorem insertDescBy_perm {α β : Type} [LinearOrder β] (key : α → β) (x : α) :
    ∀ l : List α, (insertDescBy key x l).Perm (x :: l)
  | [] => List.Perm.refl _
  | y :: ys => by
    simp only [insertDescBy]
    split
    · exact ((insertDescBy_perm key x ys).cons y).trans (List.Perm.swap x y ys)
    · exact List.Perm.refl _

theorem sortFoldl_perm {α β : Type} [LinearOrder β] (key : α → β) :
    ∀ (l acc : List α),
      (l.foldl (fun acc x => insertDescBy key x acc) acc).Perm (l ++ acc)
  | [], acc => by simp
  | x :: rest, acc => by
    simp only [List.foldl_cons, List.cons_append]
    exact ((sortFoldl_perm key rest _).trans
      (List.Perm.append_left rest (insertDescBy_perm key x acc))).trans
      List.perm_middle

theorem sortDescBy_perm {α β : Type} [LinearOrder β] (key : α → β) (l : List α) :
    (sortDescBy key l).Perm l := by
  simpa [sortDescBy] using sortFoldl_perm key l []

theorem insertDescBy_pairwise {α β : Type} [LinearOrder β] (key : α → β) (x : α) :
    ∀ (l : List α), l.Pairwise (fun a b => key b ≤ key a) →
      (insertDescBy key x l).Pairwise (fun a b => key b ≤ key a)
  | [], _ => by simp [insertDescBy]
  | y :: ys, h => by
    rw [List.pairwise_cons] at h
    obtain ⟨hy, hys⟩ := h
    simp only [insertDescBy]
    split
    case isTrue hxy =>
      rw [List.pairwise_cons]
      refine ⟨?_, insertDescBy_pairwise key x ys hys⟩
      intro z hz
      rcases List.mem_cons.mp ((insertDescBy_perm key x ys).mem_iff.mp hz) with rfl | hzys
      · exact hxy
      · exact hy z hzys
    case isFalse hxy =>
      push_neg at hxy
      rw [List.pairwise_cons]
      refine ⟨?_, by rw [List.pairwise_cons]; exact ⟨hy, hys⟩⟩
      intro z hz
      rcases List.mem_cons.mp hz with rfl | hzys
      · exact le_of_lt hxy
      · exact (hy z hzys).trans (le_of_lt hxy)

theorem sortFoldl_pairwise {α β : Type} [LinearOrder β] (key : α → β) :
    ∀ (l acc : List α), acc.Pairwise (fun a b => key b ≤ key a) →
      (l.foldl (fun acc x => insertDescBy key x acc) acc).Pairwise
        (fun a b => key b ≤ key a)
  | [], _, h => h
  | x :: rest, acc, h => by
    simp only [List.foldl_cons]
    exact sortFoldl_pairwise key rest _ (insertDescBy_pairwise key x acc h)

theorem sortDescBy_pairwise {α β : Type} [LinearOrder β] (key : α → β) (l : List α) :
    (sortDescBy key l).Pairwise (fun a b => key b ≤ key a) :=
  sortFoldl_pairwise key l [] List.Pairwise.nil

theorem filter_key_eq_nil {α β : Type} [LinearOrder β] (key : α → β) (k : β)
    (l : List α) (hall : ∀ z ∈ l, key z < k) :
    l.filter (fun z => decide (key z = k)) = [] := by
  rw [List.filter_eq_nil_iff]
  intro z hz
  simp only [decide_eq_true_eq]
  exact ne_of_lt (hall z hz)

theorem insertDescBy_filter {α β : Type} [LinearOrder β] (key : α → β) (k : β) (x : α) :
    ∀ (l : List α), l.Pairwise (fun a b => key b ≤ key a) →
      (insertDescBy key x l).filter (fun z => decide (key z = k)) =
        if key x = k then l.filter (fun z => decide (key z = k)) ++ [x]
        else l.filter (fun z => decide (key z = k))
  | [], _ => by by_cases h : key x = k <;> simp [insertDescBy, h]
  | y :: ys, hp => by
    rw [List.pairwise_cons] at hp
    obtain ⟨hy, hys⟩ := hp
    simp only [insertDescBy]
    split
    case isTrue hxy =>
      rw [List.filter_cons, insertDescBy_filter key k x ys hys]
      by_cases h1 : key x = k <;> by_cases h2 : key y = k <;>
        simp [List.filter_cons, h1, h2]
    case isFalse hxy =>
      push_neg at hxy
      by_cases h1 : key x = k
      · have hnil : (y :: ys).filter (fun z => decide (key z = k)) = [] := by
          refine filter_key_eq_nil key k _ ?_
          intro z hz
          rcases List.mem_cons.mp hz with rfl | hzys
          · exact h1 ▸ hxy
          · exact lt_of_le_of_lt (hy z hzys) (h1 ▸ hxy)
        rw [List.filter_cons, hnil]
        simp [h1]
      · rw [List.filter_cons]
        simp [h1]

theorem sortFoldl_filter {α β : Type} [LinearOrder β] (key : α → β) (k : β) :
    ∀ (l acc : List α), acc.Pairwise (fun a b => key b ≤ key a) →
      (l.foldl (fun acc x => insertDescBy key x acc) acc).filter
          (fun z => decide (key z = k)) =
        acc.filter (fun z => decide (key z = k)) ++
          l.filter (fun z => decide (key z = k))
  | [], acc, _ => by simp
  | x :: rest, acc, h => by
    simp only [List.foldl_cons]
    rw [sortFoldl_filter key k rest _ (insertDescBy_pairwise key x acc h),
      insertDescBy_filter key k x acc h, List.filter_cons]
    by_cases h1 : key x = k <;> simp [h1]

theorem sortDescBy_filter {α β : Type} [LinearOrder β] (key : α → β) (k : β)
    (l : List α) :
    (sortDescBy key l).filter (fun z => decide (key z = k)) =
      l.filter (fun z => decide (key z = k)) := by
  simpa [sortDescBy] using sortFoldl_filter key k l [] List.Pairwise.nil

/-!
Counter invariants: every key of the counter built by `buildCounter`
entered through the token filter.
-/

theorem counterUpdate_prop (P : String → Prop) (c : Counter) (w : String)
    (hc : ∀ p ∈ c, P p.1) (hw : P w) : ∀ p ∈ counterUpdate c w, P p.1 := by
  intro p hp
  unfold counterUpdate at hp
  split at hp
  · rcases List.mem_map.mp hp with ⟨q, hq, rfl⟩
    split
    · exact hc q hq
    · exact hc q hq
  · rcases List.mem_append.mp hp with h | h
    · exact hc p h
    · rw [List.mem_singleton] at h
      subst h
      exact hw

theorem foldl_counterUpdate_prop (P : String → Prop) :
    ∀ (ws : List String) (c : Counter), (∀ p ∈ c, P p.1) → (∀ w ∈ ws, P w) →
      ∀ p ∈ ws.foldl counterUpdate c, P p.1
  | [], _, hc, _ => hc
  | w :: rest, c, hc, hws => by
    simp only [List.foldl_cons]
    exact foldl_counterUpdate_prop P rest _
      (counterUpdate_prop P c w hc (hws w (List.mem_cons_self w rest)))
      (fun v hv => hws v (List.mem_cons_of_mem w hv))

theorem buildCounter_prop (tokenize : String → List String) (isNum : String → Bool) :
    ∀ (arts : List PyDict) (c out : Counter),
      buildCounter tokenize isNum arts c = .ok out →
      (∀ p ∈ c, tokenFilter isNum p.1 = true) →
      ∀ p ∈ out, tokenFilter isNum p.1 = true
  | [], c, out, h, hc => by
    simp only [buildCounter] at h
    cases h
    exact hc
  | a :: rest, c, out, h, hc => by
    simp only [buildCounter] at h
    cases hta : articleTitleTokens tokenize a with
    | error e =>
      rw [hta] at h
      exact Except.noConfusion h
    | ok ws =>
      rw [hta] at h
      exact buildCounter_prop tokenize isNum rest _ out h
        (foldl_counterUpdate_prop _ _ _ hc (fun w hw => (List.mem_filter.mp hw).2))

theorem extract_keywords_ok_inv (tokenize : String → List String)
    (isNum : String → Bool) (articles : List PyDict) (out : List (String × Nat))
    (h : extract_keywords tokenize isNum articles = .ok out) :
    ∃ items, buildCounter tokenize isNum articles [] = .ok items ∧
      out = (sortDescBy (fun p => p.2) items).take TOP_TRENDING_KEYWORDS_COUNT := by
  unfold extract_keywords at h
  cases hb : buildCounter tokenize isNum articles [] with
  | error e =>
    rw [hb] at h
    exact Except.noConfusion h
  | ok items =>
    rw [hb] at h
    injection h with h'
    exact ⟨items, rfl, h'.symm⟩

/-- **C4.** For every tokenizer, numeric predicate and input pool, when
`extract_keywords` returns a keyword list, that list has length at most
`TOP_TRENDING_KEYWORDS_COUNT`, is sorted by descending frequency, and is
stable: for every frequency `k`, its entries of frequency `k` are a
prefix of the counter's entries of frequency `k` taken in
first-encounter (insertion) order — hence ties are broken by
first-encounter order, and the output is a deterministic function of the
input order. -/
theorem extract_keywords_top_sorted (tokenize : String → List String)
    (isNum : String → Bool) (articles : List PyDict) (out : List (String × Nat))
    (h : extract_keywords tokenize isNum articles = .ok out) :
    out.length ≤ TOP_TRENDING_KEYWORDS_COUNT ∧
    out.Pairwise (fun p q => q.2 ≤ p.2) ∧
    ∃ items, buildCounter tokenize isNum articles [] = .ok items ∧
      ∀ k : Nat, out.filter (fun p => decide (p.2 = k)) <+:
        items.filter (fun p => decide (p.2 = k)) := by
  obtain ⟨items, hb, rfl⟩ := extract_keywords_ok_inv tokenize isNum articles out h
  refine ⟨?_, ?_, items, hb, ?_⟩
  · rw [List.length_take]
    exact min_le_left _ _
  · exact (sortDescBy_pairwise (fun p => p.2) items).sublist (List.take_sublist _ _)
  · intro k
    rw [← sortDescBy_filter (fun p => p.2) k items]
    exact ( List.take_prefix _ _).filter _

/-- **C5.** For every tokenizer, numeric predicate and input pool, no
entry of the keyword list returned by `extract_keywords` is a stop-word
from `CUSTOM_STOP_WORDS`, a token the numeric predicate accepts, or a
token of length at most one. -/
theorem extract_keywords_no_banned_tokens (tokenize : String → List String)
    (isNum : String → Bool) (articles : List PyDict) (out : List (String × Nat))
    (h : extract_keywords tokenize isNum articles = .ok out) :
    ∀ p ∈ out, CUSTOM_STOP_WORDS.contains p.1 = false ∧
      isNum p.1 = false ∧ 1 < p.1.length := by
  obtain ⟨items, hb, rfl⟩ := extract_keywords_ok_inv tokenize isNum articles out h
  intro p hp
  have hmem : p ∈ items :=
    (sortDescBy_perm (fun p => p.2) items).subset ((List.take_sublist _ _).subset hp)
  have hf := buildCounter_prop tokenize isNum articles [] items hb (by simp) p hmem
  simp only [tokenFilter, Bool.and_eq_true, Bool.not_eq_true', decide_eq_true_eq] at hf
  exact ⟨hf.1.1, hf.1.2, hf.2⟩

/-!
The scoring loop as a sum over matching keywords.
-/

theorem scoreFoldl_eq (content : String) :
    ∀ (kws : List (String × Nat)) (init : Int),
      kws.foldl
        (fun score kw =>
          if strContainsSub content kw.1 then score + (kw.2 : Int) else score) init =
      init + ((kws.filter (fun kw => strContainsSub content kw.1)).map
        (fun kw => (kw.2 : Int))).sum
  | [], init => by simp
  | kw :: rest, init => by
    cases h : strContainsSub content kw.1 with
    | true =>
      simp only [List.foldl_cons, List.filter_cons, h, if_true, List.map_cons,
        List.sum_cons, scoreFoldl_eq content rest]
      omega
    | false =>
      simp only [List.foldl_cons, List.filter_cons, h, Bool.false_eq_true, if_false,
        scoreFoldl_eq content rest]

theorem scoreContent_eq_sum (content : String) (kws : List (String × Nat)) :
    scoreContent content kws =
      ((kws.filter (fun kw => strContainsSub content kw.1)).map
        (fun kw => (kw.2 : Int))).sum := by
  simpa [scoreContent] using scoreFoldl_eq content kws 0

theorem scoreContent_nonneg (content : String) (kws : List (String × Nat)) :
    0 ≤ scoreContent content kws := by
  rw [scoreContent_eq_sum]
  refine List.sum_nonneg ?_
  intro x hx
  rcases List.mem_map.mp hx with ⟨kw, _, rfl⟩
  exact Int.natCast_nonneg kw.2

theorem sum_filter_mono (p q : (String × Nat) → Bool) :
    ∀ (l : List (String × Nat)), (∀ x ∈ l, p x = true → q x = true) →
      ((l.filter p).map (fun kw => (kw.2 : Int))).sum ≤
        ((l.filter q).map (fun kw => (kw.2 : Int))).sum
  | [], _ => by simp
  | a :: rest, h => by
    have IH := sum_filter_mono p q rest (fun x hx => h x (List.mem_cons_of_mem a hx))
    have ha := h a (List.mem_cons_self a rest)
    cases hp : p a with
    | true =>
      rw [List.filter_cons, List.filter_cons, if_pos hp, if_pos (ha hp)]
      simp only [List.map_cons, List.sum_cons]
      exact add_le_add_left IH _
    | false =>
      rw [List.filter_cons, if_neg (by simp [hp])]
      cases hq : q a with
      | true =>
        rw [List.filter_cons, if_pos hq]
        simp only [List.map_cons, List.sum_cons]
        exact IH.trans (le_add_of_nonneg_left (Int.natCast_nonneg a.2))
      | false =>
        rw [List.filter_cons, if_neg (by simp [hq])]
        exact IH

/-- **C9.** The scorer is monotone in the set of matching keywords: if
every keyword of the list that matches blob `c₁` also matches blob `c₂`,
the score of `c₂` is at least that of `c₁`; and the score depends only on
*whether* each keyword matches, so further substring occurrences of an
already-matching keyword (any blob with the same per-keyword match
results) leave the score unchanged. -/
theorem score_monotone_in_matches (kws : List (String × Nat)) (c₁ c₂ : String) :
    ((∀ kw ∈ kws, strContainsSub c₁ kw.1 = true → strContainsSub c₂ kw.1 = true) →
      scoreContent c₁ kws ≤ scoreContent c₂ kws) ∧
    ((∀ kw ∈ kws, strContainsSub c₂ kw.1 = strContainsSub c₁ kw.1) →
      scoreContent c₂ kws = scoreContent c₁ kws) := by
  constructor
  · intro h
    rw [scoreContent_eq_sum, scoreContent_eq_sum]
    exact sum_filter_mono _ _ kws h
  · intro h
    rw [scoreContent_eq_sum, scoreContent_eq_sum]
    rw [List.filter_congr h]

/-- **C9, witness.** A blob gaining a match can only raise the score, and
a blob with an extra occurrence of an already-matching keyword keeps the
exact same score. -/
theorem score_monotone_in_matches_witness :
    scoreContent "x" [("ab", 2)] ≤ scoreContent "zab" [("ab", 2)] ∧
    scoreContent "abab" [("ab", 2)] = scoreContent "zab" [("ab", 2)] :=
  ⟨(score_monotone_in_matches [("ab", 2)] "x" "zab").1 (by decide),
   (score_monotone_in_matches [("ab", 2)] "zab" "abab").2 (by decide)⟩

/-- The claim's reading of the scorer, following the spec's words: the sum,
over the *distinct* keywords of the list whose term occurs as a substring
of the blob, of that keyword's frequency. -/
def specDistinctScore (content : String) (kws : List (String × Nat)) : Int :=
  ((kws.dedup.filter (fun kw => strContainsSub content kw.1)).map
    (fun kw => (kw.2 : Int))).sum

/-- **C3, counterexample.** On the article with title `"aa"` (blob
`"aa "`) and the keyword list `[("a", 1), ("a", 1)]`, `score_article`
returns `2` — the duplicated keyword entry contributes its frequency
twice — while the sum over the distinct keywords of the list is `1`, so
the claim's "sum over the distinct keywords in the list" reading fails
for lists with repeated entries. -/
theorem score_article_duplicate_keyword_counted_twice :
    score_article [("title", JVal.jstr "aa")] [("a", 1), ("a", 1)] = .ok 2 ∧
    articleContent [("title", JVal.jstr "aa")] = .ok "aa " ∧
    specDistinctScore "aa " [("a", 1), ("a", 1)] = 1 ∧
    (2 : Int) ≠ 1 :=
  ⟨by rfl, by rfl, by decide, by decide⟩

/-- **C3, amended.** For every article and every keyword list whose terms
are pairwise distinct (as the lists produced by `extract_keywords` are),
whenever scoring succeeds it returns exactly the sum, over the distinct
keywords of the list whose term occurs as a substring of the lower-cased
`title + " " + description` blob, of that keyword's frequency — each
keyword contributing at most once however often it occurs in the blob —
and the result is non-negative. -/
theorem score_article_distinct_sum (article : PyDict) (kws : List (String × Nat))
    (n : Int) (hnd : (kws.map Prod.fst).Nodup)
    (h : score_article article kws = .ok n) :
    ∃ content, articleContent article = .ok content ∧
      n = specDistinctScore content kws ∧ 0 ≤ n := by
  unfold score_article at h
  cases hc : articleContent article with
  | error e =>
    rw [hc] at h
    exact Except.noConfusion h
  | ok content =>
    rw [hc] at h
    injection h with h'
    refine ⟨content, rfl, ?_, ?_⟩
    · rw [← h']
      unfold specDistinctScore
      rw [(List.Nodup.of_map Prod.fst hnd).dedup]
      exact scoreContent_eq_sum content kws
    · rw [← h']
      exact scoreContent_nonneg content kws

/-- **C3, witness.** -/
theorem score_article_distinct_sum_witness :
    ((([("ab", 2), ("cd", 3)] : List (String × Nat)).map Prod.fst).Nodup) ∧
    score_article [("title", JVal.jstr "xab")] [("ab", 2), ("cd", 3)] = .ok 2 ∧
    ∃ content, articleContent [("title", JVal.jstr "xab")] = .ok content ∧
      (2 : Int) = specDistinctScore content [("ab", 2), ("cd", 3)] ∧ (0 : Int) ≤ 2 :=
  ⟨by decide, by rfl, score_article_distinct_sum _ _ 2 (by decide) (by rfl)⟩

/-!
C10: totality of the scorer on degenerate records.
-/

/-- The field stored under `k` is absent, `None`, or a string — the field
shapes the news API actually delivers. -/
def StringishField (a : PyDict) (k : String) : Prop :=
  a.lookup k = none ∨ a.lookup k = some JVal.jnull ∨
    ∃ s, a.lookup k = some (JVal.jstr s)

/-- Spec-side text of an optional field with a missing or `None` value
treated as the empty string. -/
def optFieldText : Option JVal → String
  | none => ""
  | some JVal.jnull => ""
  | some (JVal.jstr s) => strToLower s
  | some (JVal.jobj _) => ""

/-- **C10.** For every keyword list and every article whose title and
description fields are each missing, `None`, or a string, scoring never
fails: the missing or `None` field is treated as the empty string, and
the result is a non-negative integer. -/
theorem score_article_total_on_degenerate (a : PyDict) (kws : List (String × Nat))
    (ht : StringishField a "title") (hd : StringishField a "description") :
    score_article a kws =
      .ok (scoreContent (optFieldText (a.lookup "title") ++ " " ++
        optFieldText (a.lookup "description")) kws) ∧
    ∃ n, score_article a kws = .ok n ∧ 0 ≤ n := by
  have htit : pyFieldText (dGet a "title" JVal.jnull) =
      .ok (optFieldText (a.lookup "title")) := by
    rcases ht with h | h | ⟨s, h⟩ <;> simp [dGet, h, pyFieldText, optFieldText]
  have hdesc : pyFieldText (dGet a "description" JVal.jnull) =
      .ok (optFieldText (a.lookup "description")) := by
    rcases hd with h | h | ⟨s, h⟩ <;> simp [dGet, h, pyFieldText, optFieldText]
  have h1 : score_article a kws =
      .ok (scoreContent (optFieldText (a.lookup "title") ++ " " ++
        optFieldText (a.lookup "description")) kws) := by
    simp only [score_article, articleContent, htit, hdesc]
  exact ⟨h1, _, h1, scoreContent_nonneg _ _⟩

/-- **C10, witness.** An article with no title field and a `None`
description is scored without failure. -/
theorem score_article_total_on_degenerate_witness :
    StringishField [("description", JVal.jnull)] "title" ∧
    StringishField [("description", JVal.jnull)] "description" ∧
    (score_article [("description", JVal.jnull)] [("ai", 5)] =
      .ok (scoreContent
        (optFieldText ((([("description", JVal.jnull)] : PyDict)).lookup "title") ++
          " " ++
          optFieldText ((([("description", JVal.jnull)] : PyDict)).lookup "description"))
        [("ai", 5)]) ∧
     ∃ n, score_article [("description", JVal.jnull)] [("ai", 5)] = .ok n ∧ 0 ≤ n) :=
  ⟨Or.inl rfl, Or.inr (Or.inl rfl),
   score_article_total_on_degenerate _ _ (Or.inl rfl) (Or.inr (Or.inl rfl))⟩

/-!
Inversion lemmas for the pipeline stages of `mainRun`.
-/

theorem scoreStage_ok_fst (kws : List (String × Nat)) :
    ∀ (l : List PyDict) (scored : List (PyDict × Int)),
      scoreStage kws l = .ok scored → scored.map Prod.fst = l
  | [], scored, h => by
    simp only [scoreStage] at h
    cases h
    rfl
  | a :: rest, scored, h => by
    simp only [scoreStage] at h
    cases hs : score_article a kws with
    | error e =>
      rw [hs] at h
      exact Except.noConfusion h
    | ok sc =>
      rw [hs] at h
      cases ht : scoreStage kws rest with
      | error e =>
        rw [ht] at h
        exact Except.noConfusion h
      | ok tail =>
        rw [ht] at h
        injection h with h'
        subst h'
        simp [scoreStage_ok_fst kws rest tail ht]

theorem outputStage_ok_mem :
    ∀ (l : List PyDict) (recs : List ProcessedArticle), outputStage l = .ok recs →
      ∀ r ∈ recs, ∃ a ∈ l, projectArticle a = .ok r
  | [], recs, h => by
    simp only [outputStage] at h
    cases h
    intro r hr
    exact absurd hr (List.not_mem_nil r)
  | a :: rest, recs, h => by
    simp only [outputStage] at h
    cases hp : projectArticle a with
    | error e =>
      rw [hp] at h
      exact Except.noConfusion h
    | ok r0 =>
      rw [hp] at h
      cases ht : outputStage rest with
      | error e =>
        rw [ht] at h
        exact Except.noConfusion h
      | ok tail =>
        rw [ht] at h
        injection h with h'
        subst h'
        intro r hr
        rcases List.mem_cons.mp hr with rfl | hrt
        · exact ⟨a, List.mem_cons_self a rest, hp⟩
        · rcases outputStage_ok_mem rest tail ht r hrt with ⟨b, hb, hpb⟩
          exact ⟨b, List.mem_cons_of_mem a hb, hpb⟩

theorem outputStage_ok_length :
    ∀ (l : List PyDict) (recs : List ProcessedArticle), outputStage l = .ok recs →
      recs.length = l.length
  | [], recs, h => by
    simp only [outputStage] at h
    cases h
    rfl
  | a :: rest, recs, h => by
    simp only [outputStage] at h
    cases hp : projectArticle a with
    | error e =>
      rw [hp] at h
      exact Except.noConfusion h
    | ok r0 =>
      rw [hp] at h
      cases ht : outputStage rest with
      | error e =>
        rw [ht] at h
        exact Except.noConfusion h
      | ok tail =>
        rw [ht] at h
        injection h with h'
        subst h'
        simp [outputStage_ok_length rest tail ht]

theorem mainRun_ok_some_inv (tokenize : String → List String) (isNum : String → Bool)
    (T P : List PyDict) (recs : List ProcessedArticle)
    (h : mainRun tokenize isNum T P = .ok (some recs)) :
    T ≠ [] ∧ P ≠ [] ∧
    ∃ kws scored, extract_keywords tokenize isNum T = .ok kws ∧ kws ≠ [] ∧
      scoreStage kws (validCandidates P) = .ok scored ∧
      outputStage (topStage (sortStage scored)) = .ok recs := by
  unfold mainRun at h
  by_cases hT : T.isEmpty
  · rw [if_pos hT] at h
    injection h with h'
    exact Option.noConfusion h'
  · rw [if_neg hT] at h
    cases hk : extract_keywords tokenize isNum T with
    | error e =>
      rw [hk] at h
      exact Except.noConfusion h
    | ok kws =>
      simp only [hk] at h
      by_cases hke : kws.isEmpty
      · rw [if_pos hke] at h
        injection h with h'
        exact Option.noConfusion h'
      · rw [if_neg hke] at h
        by_cases hP : P.isEmpty
        · rw [if_pos hP] at h
          injection h with h'
          exact Option.noConfusion h'
        · rw [if_neg hP] at h
          cases hs : scoreStage kws (validCandidates P) with
          | error e =>
            rw [hs] at h
            exact Except.noConfusion h
          | ok scored =>
            simp only [hs] at h
            cases ho : outputStage (topStage (sortStage scored)) with
            | error e =>
              rw [ho] at h
              exact Except.noConfusion h
            | ok processed =>
              simp only [ho] at h
              injection h with h'
              injection h' with h''
              subst h''
              refine ⟨?_, ?_, kws, scored, rfl, ?_, hs, ho⟩
              · exact fun hh => hT (by simp [hh])
              · exact fun hh => hP (by simp [hh])
              · exact fun hh => hke (by simp [hh])

theorem mainRun_ok_article_mem (tokenize : String → List String) (isNum : String → Bool)
    (T P : List PyDict) (recs : List ProcessedArticle)
    (h : mainRun tokenize isNum T P = .ok (some recs)) :
    ∀ r ∈ recs, ∃ a, a ∈ validCandidates P ∧ projectArticle a = .ok r := by
  obtain ⟨_, _, kws, scored, _, _, hs, ho⟩ := mainRun_ok_some_inv tokenize isNum T P recs h
  intro r hr
  rcases outputStage_ok_mem _ _ ho r hr with ⟨a, ha, hpa⟩
  unfold topStage sortStage at ha
  rcases List.mem_map.mp ha with ⟨p, hp, rfl⟩
  have hpsorted : p ∈ sortDescBy (fun q : PyDict × Int => q.2) scored :=
    (List.take_sublist _ _).subset hp
  have hpscored : p ∈ scored :=
    (sortDescBy_perm (fun q : PyDict × Int => q.2) scored).subset hpsorted
  have hfst : p.1 ∈ scored.map Prod.fst := List.mem_map_of_mem Prod.fst hpscored
  rw [scoreStage_ok_fst kws (validCandidates P) scored hs] at hfst
  exact ⟨p.1, hfst, hpa⟩

/-!
Projection of the selected articles (Pass 3).
-/

/-- A well-typed article record in the shape the news API contracts to
deliver: title and description are strings when present, the url is
present and a string, and the source is an object whose name, when
present, is a string. -/
def ArticleWF (a : PyDict) : Prop :=
  (∀ v, a.lookup "title" = some v → ∃ s, v = JVal.jstr s) ∧
  (∀ v, a.lookup "description" = some v → ∃ s, v = JVal.jstr s) ∧
  (∃ u, a.lookup "url" = some (JVal.jstr u)) ∧
  (∀ v, a.lookup "source" = some v → ∃ fs, v = JVal.jobj fs ∧
    ∀ w, fs.lookup "name" = some w → ∃ s, w = JVal.jstr s)

/-- The spec-side reading of the projected source field:
`article.get('source', {}).get('name', 'N/A')` made total (on a non-object
source the script would raise instead). -/
def sourceNameTotal (article : PyDict) : JVal :=
  match dGet article "source" (.jobj []) with
  | .jobj fs => dGet fs "name" (.jstr "N/A")
  | _ => .jstr "N/A"

theorem dGet_name_stringish (fs : List (String × JVal))
    (hname : ∀ w, fs.lookup "name" = some w → ∃ s, w = JVal.jstr s) :
    ∃ s, dGet fs "name" (JVal.jstr "N/A") = JVal.jstr s := by
  cases hln : fs.lookup "name" with
  | none => exact ⟨"N/A", by simp [dGet, hln]⟩
  | some w =>
    obtain ⟨s, rfl⟩ := hname w hln
    exact ⟨s, by simp [dGet, hln]⟩

theorem projectArticle_wf (a : PyDict) (hwf : ArticleWF a)
    (hv : isValidArticle a = true) :
    ∃ r, projectArticle a = .ok r ∧
      r.title = dGet a "title" JVal.jnull ∧
      r.description = dGet a "description" (JVal.jstr "") ∧
      r.url = dGet a "url" JVal.jnull ∧
      r.source = sourceNameTotal a ∧
      (∃ t, r.title = JVal.jstr t) ∧ (∃ d, r.description = JVal.jstr d) ∧
      (∃ u, r.url = JVal.jstr u) ∧ (∃ s, r.source = JVal.jstr s) := by
  obtain ⟨hwt, hwd, ⟨u, hwu⟩, hws⟩ := hwf
  have htp : ∃ tv, a.lookup "title" = some tv := by
    cases hlt : a.lookup "title" with
    | none =>
      exfalso
      unfold isValidArticle dGet at hv
      rw [hlt] at hv
      simp [JVal.truthy] at hv
    | some tv => exact ⟨tv, rfl⟩
  obtain ⟨tv, hlt⟩ := htp
  obtain ⟨t, rfl⟩ := hwt tv hlt
  have hdesc : ∃ d, dGet a "description" (JVal.jstr "") = JVal.jstr d := by
    cases hld : a.lookup "description" with
    | none => exact ⟨"", by simp [dGet, hld]⟩
    | some dv =>
      obtain ⟨d, rfl⟩ := hwd dv hld
      exact ⟨d, by simp [dGet, hld]⟩
  unfold projectArticle
  rw [hlt, hwu]
  cases hls : a.lookup "source" with
  | none =>
    have hsrc : dGet a "source" (JVal.jobj []) = JVal.jobj [] := by simp [dGet, hls]
    rw [hsrc]
    refine ⟨_, rfl, by simp [dGet, hlt], rfl, by simp [dGet, hwu], ?_, ⟨t, rfl⟩,
      hdesc, ⟨u, rfl⟩, ?_⟩
    · simp [sourceNameTotal, hsrc]
    · exact dGet_name_stringish [] (by intro w hw; exact Option.noConfusion hw)
  | some sv =>
    obtain ⟨fs, rfl, hname⟩ := hws sv hls
    have hsrc : dGet a "source" (JVal.jobj []) = JVal.jobj fs := by simp [dGet, hls]
    rw [hsrc]
    refine ⟨_, rfl, by simp [dGet, hlt], rfl, by simp [dGet, hwu], ?_, ⟨t, rfl⟩,
      hdesc, ⟨u, rfl⟩, ?_⟩
    · simp [sourceNameTotal, hsrc]
    · exact dGet_name_stringish fs hname

theorem projectArticle_ok_title (a : PyDict) (r : ProcessedArticle)
    (h : projectArticle a = .ok r) :
    r.title = dGet a "title" JVal.jnull := by
  unfold projectArticle at h
  cases hlt : a.lookup "title" with
  | none =>
    rw [hlt] at h
    exact Except.noConfusion h
  | some t =>
    rw [hlt] at h
    cases hlu : a.lookup "url" with
    | none =>
      rw [hlu] at h
      exact Except.noConfusion h
    | some u =>
      simp only [hlu] at h
      cases hsv : dGet a "source" (JVal.jobj []) with
      | jnull =>
        rw [hsv] at h
        exact Except.noConfusion h
      | jstr s =>
        rw [hsv] at h
        exact Except.noConfusion h
      | jobj fs =>
        simp only [hsv] at h
        injection h with h'
        subst h'
        simp [dGet, hlt]

/-- **C2, counterexample.** A full run in which the one selected article
carries `description: null`: `article.get('description', '')` returns the
stored `None` (the default applies only when the key is *absent*), so the
written record's description field is `null` — not a string — refuting
"no field ever being a non-string value". -/
theorem mainRun_output_null_description :
    mainRun (fun s => [s]) (fun _ => false)
      [[("title", JVal.jstr "sora launches")]]
      [[("title", JVal.jstr "sora day"), ("description", JVal.jnull),
        ("url", JVal.jstr "https://x")]] =
      .ok (some [⟨JVal.jstr "sora day", JVal.jnull, JVal.jstr "https://x",
        JVal.jstr "N/A"⟩]) ∧
    JVal.jnull ≠ JVal.jstr "" ∧ (∀ s, JVal.jnull ≠ JVal.jstr s) :=
  ⟨by rfl, fun h => JVal.noConfusion h, fun s h => JVal.noConfusion h⟩

/-- **C2, amended.** Every record written comes from a candidate-pool
article, and — provided the selected articles carry fields of the shapes
the news API contracts to deliver (title/description strings when
present, url present and a string, source an object with a string name
when present) — each record has exactly the four scalar string fields:
title and url copied from the article, description equal to the article's
description, or `""` when the key is absent, and source equal to the
source's name, or `"N/A"` when the name is absent. When a present
description is `null` the record instead carries `null` (see the
counterexample), and a `null` source or missing url makes the run fail
instead of writing. -/
theorem mainRun_output_fields (tokenize : String → List String) (isNum : String → Bool)
    (T P : List PyDict) (recs : List ProcessedArticle)
    (hwf : ∀ a ∈ P, ArticleWF a)
    (h : mainRun tokenize isNum T P = .ok (some recs)) :
    ∀ r ∈ recs, ∃ a, a ∈ P ∧
      r.title = dGet a "title" JVal.jnull ∧
      r.description = dGet a "description" (JVal.jstr "") ∧
      r.url = dGet a "url" JVal.jnull ∧
      r.source = sourceNameTotal a ∧
      (∃ t, r.title = JVal.jstr t) ∧ (∃ d, r.description = JVal.jstr d) ∧
      (∃ u, r.url = JVal.jstr u) ∧ (∃ s, r.source = JVal.jstr s) := by
  intro r hr
  rcases mainRun_ok_article_mem tokenize isNum T P recs h r hr with ⟨a, hav, hpa⟩
  have haP : a ∈ P := (List.filter_sublist P).subset hav
  have hva : isValidArticle a = true := (List.mem_filter.mp hav).2
  rcases projectArticle_wf a (hwf a haP) hva with ⟨r0, hpr0, hprops⟩
  have heq : r0 = r := by
    have := hpr0.symm.trans hpa
    injection this
  subst heq
  exact ⟨a, haP, hprops⟩

/-- **C6.** For every keyword list and candidate pool on which scoring
succeeds, the sorted scored list is descending in score; for every score
value the articles carrying it appear in the sorted list exactly in their
scored-list order, which is their fetch order (the scored list's articles
are an order-preserving sublist of the pool) — so the final ordering is a
deterministic function of the inputs. -/
theorem sortStage_sorted_stable (kws : List (String × Nat)) (pool : List PyDict)
    (scored : List (PyDict × Int))
    (h : scoreStage kws (validCandidates pool) = .ok scored) :
    (sortStage scored).Pairwise (fun p q => q.2 ≤ p.2) ∧
    (∀ k : Int, (sortStage scored).filter (fun p => decide (p.2 = k)) =
      scored.filter (fun p => decide (p.2 = k))) ∧
    (scored.map Prod.fst).Sublist pool := by
  refine ⟨sortDescBy_pairwise (fun q : PyDict × Int => q.2) scored,
    fun k => sortDescBy_filter (fun q : PyDict × Int => q.2) k scored, ?_⟩
  rw [scoreStage_ok_fst kws (validCandidates pool) scored h]
  exact List.filter_sublist pool

/-- **C7.** The three empty-pool conditions are terminal without a write
(result `.ok none`, the script's plain `return`): an empty trend pool, an
extracted keyword list that is empty, or an empty candidate pool. And any
run that does write (result `.ok (some recs)`) passed all three gates and
wrote the full freshly computed list — one record per valid candidate up
to the target count, never a truncated variant. -/
theorem mainRun_abort_and_full (tokenize : String → List String) (isNum : String → Bool)
    (T P : List PyDict) :
    (T = [] → mainRun tokenize isNum T P = .ok none) ∧
    (∀ kws, extract_keywords tokenize isNum T = .ok kws → kws = [] →
      mainRun tokenize isNum T P = .ok none) ∧
    (∀ kws, extract_keywords tokenize isNum T = .ok kws → P = [] →
      mainRun tokenize isNum T P = .ok none) ∧
    (∀ recs, mainRun tokenize isNum T P = .ok (some recs) →
      T ≠ [] ∧ P ≠ [] ∧
      (∃ kws, extract_keywords tokenize isNum T = .ok kws ∧ kws ≠ []) ∧
      recs.length = min TARGET_ARTICLE_COUNT (validCandidates P).length) := by
  refine ⟨?_, ?_, ?_, ?_⟩
  · intro hT
    subst hT
    simp [mainRun]
  · intro kws hk hke
    subst hke
    unfold mainRun
    by_cases hT : T.isEmpty
    · rw [if_pos hT]
    · rw [if_neg hT, hk]
      simp
  · intro kws hk hP
    subst hP
    unfold mainRun
    by_cases hT : T.isEmpty
    · rw [if_pos hT]
    · rw [if_neg hT, hk]
      by_cases hke : kws.isEmpty
      · simp [hke]
      · simp [hke]
  · intro recs h
    obtain ⟨hT, hP, kws, scored, hk, hke, hs, ho⟩ :=
      mainRun_ok_some_inv tokenize isNum T P recs h
    refine ⟨hT, hP, ⟨kws, hk, hke⟩, ?_⟩
    have h1 : recs.length = (topStage (sortStage scored)).length :=
      outputStage_ok_length _ _ ho
    have h2 : (topStage (sortStage scored)).length =
        min TARGET_ARTICLE_COUNT (sortStage scored).length := by
      simp [topStage, List.length_take]
    have h3 : (sortStage scored).length = scored.length :=
      (sortDescBy_perm (fun q : PyDict × Int => q.2) scored).length_eq
    have h4 : scored.length = (validCandidates P).length := by
      have := congrArg List.length (scoreStage_ok_fst kws (validCandidates P) scored hs)
      simpa using this
    omega

/-- **C8.** Whatever the pools, every written output list has at most
`TARGET_ARTICLE_COUNT` records, and every record's title field is truthy
(present and non-empty) and is not the placeholder `"[Removed]"` — the
filtered-out articles never reach the output. -/
theorem mainRun_output_valid_titles (tokenize : String → List String)
    (isNum : String → Bool) (T P : List PyDict) (recs : List ProcessedArticle)
    (h : mainRun tokenize isNum T P = .ok (some recs)) :
    recs.length ≤ TARGET_ARTICLE_COUNT ∧
    ∀ r ∈ recs, r.title.truthy = true ∧ r.title ≠ JVal.jstr "[Removed]" := by
  constructor
  · obtain ⟨_, _, kws, scored, _, _, hs, ho⟩ :=
      mainRun_ok_some_inv tokenize isNum T P recs h
    have h1 := outputStage_ok_length _ _ ho
    have h2 : (topStage (sortStage scored)).length =
        min TARGET_ARTICLE_COUNT (sortStage scored).length := by
      simp [topStage, List.length_take]
    omega
  · intro r hr
    rcases mainRun_ok_article_mem tokenize isNum T P recs h r hr with ⟨a, hav, hpa⟩
    have hva : isValidArticle a = true := (List.mem_filter.mp hav).2
    simp only [isValidArticle, Bool.and_eq_true, Bool.not_eq_true'] at hva
    constructor
    · rw [projectArticle_ok_title a r hpa]
      exact hva.1
    · intro heq
      have h2 := hva.2
      rw [← projectArticle_ok_title a r hpa, heq] at h2
      simp [isRemovedTitle] at h2

/-!
Concrete runs used by the witnesses: a one-article trend pool, a
one-article candidate pool, a tokenizer that keeps the whole title as a
single token, and a numeric predicate that accepts nothing.
-/

def tokW : String → List String := fun s => [s]

def numW : String → Bool := fun _ => false

def trendW : List PyDict := [[("title", JVal.jstr "sora launches")]]

def articleW : PyDict :=
  [("title", JVal.jstr "sora day"), ("url", JVal.jstr "https://x")]

def poolW : List PyDict := [articleW]

def recsW : List ProcessedArticle :=
  [⟨JVal.jstr "sora day", JVal.jstr "", JVal.jstr "https://x", JVal.jstr "N/A"⟩]

/-- **C4, witness.** -/
theorem extract_keywords_top_sorted_witness :
    extract_keywords tokW numW trendW = .ok [("sora launches", 1)] ∧
    (([("sora launches", 1)] : List (String × Nat)).length ≤
        TOP_TRENDING_KEYWORDS_COUNT ∧
      ([("sora launches", 1)] : List (String × Nat)).Pairwise
        (fun p q => q.2 ≤ p.2) ∧
      ∃ items, buildCounter tokW numW trendW [] = .ok items ∧
        ∀ k : Nat,
          ([("sora launches", 1)] : List (String × Nat)).filter
              (fun p => decide (p.2 = k)) <+:
            items.filter (fun p => decide (p.2 = k))) :=
  ⟨by rfl, extract_keywords_top_sorted tokW numW trendW _ (by rfl)⟩

/-- **C5, witness.** -/
theorem extract_keywords_no_banned_tokens_witness :
    extract_keywords tokW numW trendW = .ok [("sora launches", 1)] ∧
    ∀ p ∈ ([("sora launches", 1)] : List (String × Nat)),
      CUSTOM_STOP_WORDS.contains p.1 = false ∧ numW p.1 = false ∧ 1 < p.1.length :=
  ⟨by rfl, extract_keywords_no_banned_tokens tokW numW trendW _ (by rfl)⟩

/-- **C6, witness.** -/
theorem sortStage_sorted_stable_witness :
    scoreStage [("sora launches", 1)] (validCandidates poolW) =
      .ok [(articleW, 0)] ∧
    ((sortStage [(articleW, 0)]).Pairwise (fun p q => q.2 ≤ p.2) ∧
      (∀ k : Int, (sortStage [(articleW, 0)]).filter (fun p => decide (p.2 = k)) =
        ([(articleW, 0)] : List (PyDict × Int)).filter (fun p => decide (p.2 = k))) ∧
      (([(articleW, 0)] : List (PyDict × Int)).map Prod.fst).Sublist poolW) :=
  ⟨by rfl, sortStage_sorted_stable [("sora launches", 1)] poolW [(articleW, 0)] (by rfl)⟩

/-- **C7, witness.** The three abort gates and one full write, each on a
concrete run: an empty trend pool; a trend pool whose only title is a
stop-word (so the keyword list is empty); an empty candidate pool; and
the complete run that writes one record for the one valid candidate. -/
theorem mainRun_abort_and_full_witness :
    mainRun tokW numW [] poolW = .ok none ∧
    mainRun tokW numW [[("title", JVal.jstr "的")]] poolW = .ok none ∧
    mainRun tokW numW trendW [] = .ok none ∧
    (trendW ≠ [] ∧ poolW ≠ [] ∧
      (∃ kws, extract_keywords tokW numW trendW = .ok kws ∧ kws ≠ []) ∧
      recsW.length = min TARGET_ARTICLE_COUNT (validCandidates poolW).length) :=
  ⟨(mainRun_abort_and_full tokW numW [] poolW).1 rfl,
   (mainRun_abort_and_full tokW numW [[("title", JVal.jstr "的")]] poolW).2.1
     [] (by rfl) rfl,
   (mainRun_abort_and_full tokW numW trendW []).2.2.1
     [("sora launches", 1)] (by rfl) rfl,
   (mainRun_abort_and_full tokW numW trendW poolW).2.2.2 recsW (by rfl)⟩

/-- **C8, witness.** -/
theorem mainRun_output_valid_titles_witness :
    mainRun tokW numW trendW poolW = .ok (some recsW) ∧
    (recsW.length ≤ TARGET_ARTICLE_COUNT ∧
      ∀ r ∈ recsW, r.title.truthy = true ∧ r.title ≠ JVal.jstr "[Removed]") :=
  ⟨by rfl, mainRun_output_valid_titles tokW numW trendW poolW recsW (by rfl)⟩

/-- **C2, witness.** -/
theorem mainRun_output_fields_witness :
    (∀ a ∈ poolW, ArticleWF a) ∧
    mainRun tokW numW trendW poolW = .ok (some recsW) ∧
    ∀ r ∈ recsW, ∃ a, a ∈ poolW ∧
      r.title = dGet a "title" JVal.jnull ∧
      r.description = dGet a "description" (JVal.jstr "") ∧
      r.url = dGet a "url" JVal.jnull ∧
      r.source = sourceNameTotal a ∧
      (∃ t, r.title = JVal.jstr t) ∧ (∃ d, r.description = JVal.jstr d) ∧
      (∃ u, r.url = JVal.jstr u) ∧ (∃ s, r.source = JVal.jstr s) := by
  have hwfW : ∀ a ∈ poolW, ArticleWF a := by
    intro a ha
    unfold poolW at ha
    rw [List.mem_singleton] at ha
    subst ha
    refine ⟨?_, ?_, ⟨"https://x", rfl⟩, ?_⟩
    · intro v hv
      refine ⟨"sora day", ?_⟩
      injection hv with h
      exact h.symm
    · intro v hv
      exact Option.noConfusion hv
    · intro v hv
      exact Option.noConfusion hv
  exact ⟨hwfW, by rfl,
    mainRun_output_fields tokW numW trendW poolW recsW hwfW (by rfl)⟩
